import Mathlib

/-!
Shallow embedding of `src/test_client/siphog_client.py` (SmoothSiPhogClient).

Python strings are modelled as `List Char`; Python floats are modelled
exactly, as rationals plus infinities and NaN (`PyFloat`); timestamps are
rationals.  Stateful code (the receive loop of `run`) is modelled as explicit
state passing over a list of receive events; the inner `while` loop over the
buffer is modelled with explicit fuel (the loop strictly shrinks the buffer,
so any fuel at least the buffer length is enough).
-/

/-- Python's whitespace test, as used by `str.strip()` and by `float`/`int`. -/
def isSpace (c : Char) : Bool := c.isWhitespace

/-- Model of Python `s.strip()`: drop whitespace from both ends. -/
def pyStrip (s : List Char) : List Char :=
  ((s.dropWhile isSpace).reverse.dropWhile isSpace).reverse

/-- Model of Python `sep in s` for a one-character separator. -/
def hasChar (sep : Char) : List Char → Bool
  | [] => false
  | c :: cs => c = sep || hasChar sep cs

/-- Model of Python `s.split(sep)` for a one-character separator. -/
def pySplit (sep : Char) : List Char → List (List Char)
  | [] => [[]]
  | c :: cs =>
    if c = sep then [] :: pySplit sep cs
    else
      match pySplit sep cs with
      | [] => [[c]]
      | h :: t => (c :: h) :: t

/-- Model of Python `sep.join(parts)` for a one-character separator. -/
def pyJoin (sep : Char) : List (List Char) → List Char
  | [] => []
  | [s] => s
  | s :: rest => s ++ sep :: pyJoin sep rest

/-- ASCII decimal digit test. -/
def isPyDigit (c : Char) : Bool := '0' ≤ c && c ≤ '9'

/-- Value of a string of decimal digits. -/
def digitsToNat (ds : List Char) : Nat :=
  ds.foldl (fun a c => a * 10 + (c.toNat - '0'.toNat)) 0

/-- The values Python's `float(str)` can produce: finite values are kept
exactly as rationals; infinities and NaN are kept symbolically. -/
inductive PyFloat where
  | finite (q : Rat)
  | inf (neg : Bool)
  | nan
deriving DecidableEq

/-- The split of a Python float literal into raw pieces: overall sign,
integer digits, fraction digits, exponent sign and exponent digits (empty
exponent digits stand for an absent exponent). -/
structure FloatParts where
  neg : Bool
  ip : List Char
  fp : List Char
  epNeg : Bool
  ep : List Char
deriving DecidableEq

/-- The optional exponent suffix of a Python float literal: the characters
after `e`/`E` must be an optional sign followed by at least one digit. -/
def parseExpParts (cs : List Char) : Option (Bool × List Char) :=
  let sn : Bool × List Char :=
    match cs with
    | '+' :: t => (false, t)
    | '-' :: t => (true, t)
    | _ => (false, cs)
  if !sn.2.isEmpty && sn.2.all isPyDigit then some sn else none

/-- An unsigned Python float literal `digits [. digits] [exponent]` with at
least one digit in the mantissa, split into its raw pieces. -/
def parseFloatParts (neg : Bool) (cs : List Char) : Option FloatParts :=
  let ip := cs.takeWhile isPyDigit
  let r1 := cs.dropWhile isPyDigit
  let fp := match r1 with | '.' :: t => t.takeWhile isPyDigit | _ => []
  let r2 := match r1 with | '.' :: t => t.dropWhile isPyDigit | _ => r1
  if ip.isEmpty && fp.isEmpty then none
  else
    match r2 with
    | [] => some ⟨neg, ip, fp, false, []⟩
    | 'e' :: t =>
      match parseExpParts t with
      | some sn => some ⟨neg, ip, fp, sn.1, sn.2⟩
      | none => none
    | 'E' :: t =>
      match parseExpParts t with
      | some sn => some ⟨neg, ip, fp, sn.1, sn.2⟩
      | none => none
    | _ => none

/-- The exact rational value of a parsed float literal. -/
def floatValue (p : FloatParts) : Rat :=
  let mant : Rat := (digitsToNat p.ip : Rat) + (digitsToNat p.fp : Rat) / (10 : Rat) ^ p.fp.length
  let scaled : Rat :=
    if p.epNeg then mant / (10 : Rat) ^ digitsToNat p.ep
    else mant * (10 : Rat) ^ digitsToNat p.ep
  if p.neg then -scaled else scaled

/-- Model of Python `float(str)`: strip whitespace, optional sign, then
`inf`/`infinity`/`nan` (case-insensitive) or a decimal literal.  Underscore
digit separators and non-ASCII digits are not modelled; no claim involves
them.  Finite values are represented exactly (float64 rounding and overflow
to infinity are immaterial to the claims). -/
def pyFloat (s : List Char) : Option PyFloat :=
  let cs := pyStrip s
  let sn : Bool × List Char :=
    match cs with
    | '+' :: t => (false, t)
    | '-' :: t => (true, t)
    | _ => (false, cs)
  let lower := sn.2.map Char.toLower
  if lower = "inf".data ∨ lower = "infinity".data then some (.inf sn.1)
  else if lower = "nan".data then some .nan
  else
    match parseFloatParts sn.1 sn.2 with
    | some parts => some (.finite (floatValue parts))
    | none => none

/-- A parsed record: the `dict(zip(self.data_keys, values))` of the source,
as an association list (the six keys are distinct). -/
abbrev PyRecord := List (List Char × PyFloat)

/-- Field `self.data_keys` of the source, in declared order. -/
def data_keys : List (List Char) :=
  ["SLED_Current (mA)".data,
   "Photo Current (uA)".data,
   "SLED_Temp (C)".data,
   "Target SAG_PWR (V)".data,
   "SAG_PWR (V)".data,
   "TEC_Current (mA)".data]

/-- The list comprehension `[float(x.strip()) for x in clean_data.split(',')]`:
evaluated left to right, the first failing conversion aborts the whole
comprehension (the `except` of `parse_data` turns that into `None`). -/
def floatList : List (List Char) → Option (List PyFloat)
  | [] => some []
  | x :: xs =>
    match pyFloat (pyStrip x), floatList xs with
    | some v, some vs => some (v :: vs)
    | _, _ => none

/-- Method `parse_data` of the source: strip, reject empty, convert every
comma-separated token to float, require exactly 6 values, zip with the keys;
any failure yields `none`. -/
def parse_data (data_str : List Char) : Option PyRecord :=
  let clean := pyStrip data_str
  if clean = [] then none
  else
    match floatList (pySplit ',' clean) with
    | none => none
    | some values => if values.length = 6 then some (data_keys.zip values) else none

/-- Method `calculate_rate` of the source over the timestamps of `rate_history`
(oldest first): fewer than 2 entries gives 0.0; otherwise the span
`rate_history[-1] - rate_history[0]` is used only when strictly positive. -/
def calculate_rate (rate_history : List Rat) : Rat :=
  if rate_history.length < 2 then 0
  else
    let time_span := rate_history.getLastD 0 - rate_history.headD 0
    if 0 < time_span then ((rate_history.length - 1 : Nat) : Rat) / time_span else 0

/-- Append `self.rate_history.append(t)` for `deque(maxlen=50)`: when the deque is
full the oldest entry is evicted. -/
def rate_history_append (h : List Rat) (t : Rat) : List Rat :=
  if h.length < 50 then h ++ [t] else h.tail ++ [t]

/-- Result of one pass of the framing loop body of `run`: either a candidate
line plus the new buffer, or no extraction (the loop stops). -/
inductive ExtractResult where
  | extracted (line rest : List Char)
  | noExtract
deriving DecidableEq

/-- One iteration of `while '\n' in buffer or ',' in buffer` in `run`:
split at the first newline if one is present (`buffer.split('\n', 1)`);
otherwise split on commas and, with at least 6 parts, take the first 6 as the
line and rejoin the rest (`''` when exactly 6); otherwise `break`. -/
def extractStep (buffer : List Char) : ExtractResult :=
  if hasChar '\n' buffer then
    match pySplit '\n' buffer with
    | [] => .noExtract
    | h :: t => .extracted h (pyJoin '\n' t)
  else if hasChar ',' buffer then
    let parts := pySplit ',' buffer
    if 6 ≤ parts.length then
      .extracted (pyJoin ',' (parts.take 6))
        (if 6 < parts.length then pyJoin ',' (parts.drop 6) else [])
    else .noExtract
  else .noExtract

/-- The per-line acceptance in `run`: `line = line.strip()`, then
`if line and ',' in line:` followed by `parse_data`. -/
def acceptLine (line : List Char) : Option PyRecord :=
  let l := pyStrip line
  if l ≠ [] ∧ hasChar ',' l then parse_data l else none

/-- The whole framing loop of `run` on one buffer, with fuel: the records
accepted (in order) and the final buffer.  Each extraction strictly shrinks
the buffer, so any fuel at least the buffer length reaches the fixpoint. -/
def processBuffer : Nat → List Char → List PyRecord × List Char
  | 0, buffer => ([], buffer)
  | fuel + 1, buffer =>
    match extractStep buffer with
    | .noExtract => ([], buffer)
    | .extracted line rest =>
      match acceptLine line with
      | some r =>
        let p := processBuffer fuel rest
        (r :: p.1, p.2)
      | none => processBuffer fuel rest

/-- What one `self.socket.recv(1024)` can yield in `run`: a chunk of bytes,
a zero-length read (peer closed), a `socket.timeout`, or another socket
exception. -/
inductive RecvEvent where
  | chunk (s : List Char)
  | closed
  | timeout
  | sockError
deriving DecidableEq

/-- How the receive loop of `run` ended.  `streamEnded` is the model artifact
for an event trace that ran out without a terminating event. -/
inductive SessionEnd where
  | closedByPeer
  | socketError
  | streamEnded
deriving DecidableEq

/-- Observable outputs of the session: a display repaint per accepted record,
the two terminal status lines, and the `finally:` session summary. -/
inductive OutEvent where
  | displayUpdate (r : PyRecord)
  | statusDisconnected
  | statusError
  | summary (total : Nat)
deriving DecidableEq

/-- State returned by the receive loop: outputs emitted, `self.data_count`,
the remaining buffer, how the loop ended, and the events it never consumed. -/
structure LoopResult where
  out : List OutEvent
  count : Nat
  buffer : List Char
  ended : SessionEnd
  remaining : List RecvEvent
deriving DecidableEq

/-- The receive loop of `run` (after a successful connect), driven by a trace
of receive events: a zero-length read or a socket error breaks the loop, a
timeout continues it, and a chunk is appended to the buffer and the framing
loop run to its fixpoint. -/
def sessionLoop : List RecvEvent → Nat → List Char → LoopResult
  | [], count, buf => ⟨[], count, buf, .streamEnded, []⟩
  | .closed :: rest, count, buf => ⟨[.statusDisconnected], count, buf, .closedByPeer, rest⟩
  | .sockError :: rest, count, buf => ⟨[.statusError], count, buf, .socketError, rest⟩
  | .timeout :: rest, count, buf => sessionLoop rest count buf
  | .chunk s :: rest, count, buf =>
    let b := buf ++ s
    let p := processBuffer (b.length + 1) b
    let r := sessionLoop rest (count + p.1.length) p.2
    ⟨p.1.map .displayUpdate ++ r.out, r.count, r.buffer, r.ended, r.remaining⟩

/-- Recognises the summary footer among the outputs. -/
def isSummary : OutEvent → Bool
  | .summary _ => true
  | _ => false

/-- Function `run` after a successful connect: the receive loop followed by the
`finally:` block, which prints the session summary exactly once on every way
out of the loop. -/
def runSession (events : List RecvEvent) : List OutEvent × SessionEnd :=
  let r := sessionLoop events 0 []
  (r.out ++ [.summary r.count], r.ended)

/-- Model of Python `int(str)` in base 10: strip whitespace, optional sign,
at least one digit.  Underscore separators are not modelled. -/
def pyInt (s : List Char) : Option Int :=
  let cs := pyStrip s
  let sn : Bool × List Char :=
    match cs with
    | '+' :: t => (false, t)
    | '-' :: t => (true, t)
    | _ => (false, cs)
  if !sn.2.isEmpty && sn.2.all isPyDigit then
    some (if sn.1 then -(digitsToNat sn.2 : Int) else (digitsToNat sn.2 : Int))
  else none

/-- What `main` decides: exit with a failure code before any client exists,
or construct and run a client on a host and port. -/
inductive MainResult where
  | exitFailure (code : Nat)
  | runClient (host : List Char) (port : Int)
deriving DecidableEq

/-- Function `main` of the source over `sys.argv` (index 0 is the program name):
defaults `127.0.0.1` and `65432`, overridden by the positional arguments;
an unparseable port argument exits with code 1. -/
def main_fn (argv : List (List Char)) : MainResult :=
  let host := if 2 ≤ argv.length then argv.getD 1 [] else "127.0.0.1".data
  if 3 ≤ argv.length then
    match pyInt (argv.getD 2 []) with
    | some p => .runClient host p
    | none => .exitFailure 1
  else .runClient host 65432

/-- Spec-side acceptance predicate, following the claim's words: trimmed line
non-empty, at least one comma, exactly 6 comma-separated tokens, every token
a FINITE float.  Kept separate from `acceptLine` (the code) on purpose. -/
def specAccepts (line : List Char) : Bool :=
  let l := pyStrip line
  !l.isEmpty && hasChar ',' l && (pySplit ',' l).length == 6 &&
    (pySplit ',' l).all fun t =>
      match pyFloat (pyStrip t) with
      | some (.finite _) => true
      | _ => false

/-- Spec-side rate formula, following the claim's words: 0 below 2 samples,
otherwise `(count - 1) / (newest - oldest)` unconditionally.  Kept separate
from `calculate_rate` (the code) on purpose. -/
def rate_spec (h : List Rat) : Rat :=
  if h.length < 2 then 0
  else ((h.length - 1 : Nat) : Rat) / (h.getLastD 0 - h.headD 0)

/-! ### Helper lemmas about the string model -/

theorem pySplit_ne_nil (sep : Char) (s : List Char) : pySplit sep s ≠ [] := by
  cases s with
  | nil => simp [pySplit]
  | cons c cs =>
    simp only [pySplit]
    split
    · simp
    · cases h : pySplit sep cs <;> simp

theorem pyJoin_cons_cons (sep : Char) (a b : List Char) (l : List (List Char)) :
    pyJoin sep (a :: b :: l) = a ++ sep :: pyJoin sep (b :: l) := rfl

theorem pyJoin_pySplit (sep : Char) (s : List Char) :
    pyJoin sep (pySplit sep s) = s := by
  induction s with
  | nil => rfl
  | cons c cs ih =>
    simp only [pySplit]
    split
    · rename_i hc
      cases hsp : pySplit sep cs with
      | nil => exact absurd hsp (pySplit_ne_nil sep cs)
      | cons x t =>
        rw [hsp] at ih
        rw [pyJoin_cons_cons, ← ih, hc]
        rfl
    · cases hsp : pySplit sep cs with
      | nil => exact absurd hsp (pySplit_ne_nil sep cs)
      | cons x t =>
        rw [hsp] at ih
        cases t with
        | nil => simpa [pyJoin] using congrArg (c :: ·) ih
        | cons y t' =>
          rw [pyJoin_cons_cons] at ih ⊢
          rw [← ih]
          rfl

theorem hasChar_pySplit_head (sep : Char) (s : List Char) {h : List Char}
    {t : List (List Char)} (e : pySplit sep s = h :: t) : hasChar sep h = false := by
  induction s generalizing h t with
  | nil =>
    simp only [pySplit] at e
    cases e
    rfl
  | cons c cs ih =>
    simp only [pySplit] at e
    by_cases hc : c = sep
    · rw [if_pos hc] at e
      cases e
      rfl
    · rw [if_neg hc] at e
      cases hsp : pySplit sep cs with
      | nil => exact absurd hsp (pySplit_ne_nil sep cs)
      | cons x t' =>
        rw [hsp] at e
        cases e
        have hx := ih hsp
        simp [hasChar, hc, hx]

theorem hasChar_iff_pySplit (sep : Char) (s : List Char) :
    hasChar sep s = true ↔ 2 ≤ (pySplit sep s).length := by
  induction s with
  | nil => simp [hasChar, pySplit]
  | cons c cs ih =>
    simp only [hasChar, pySplit]
    by_cases hc : c = sep
    · have h1 : 1 ≤ (pySplit sep cs).length :=
        List.length_pos.mpr (pySplit_ne_nil sep cs)
      simp only [if_pos hc, List.length_cons]
      constructor
      · intro _; omega
      · intro _; simp [hc]
    · rw [if_neg hc]
      cases hsp : pySplit sep cs with
      | nil => exact absurd hsp (pySplit_ne_nil sep cs)
      | cons x t =>
        rw [hsp] at ih
        have hd : (decide (c = sep) || hasChar sep cs) = hasChar sep cs := by simp [hc]
        rw [hd, List.length_cons] at *
        exact ih

theorem pyStrip_eq_rdropWhile (s : List Char) :
    pyStrip s = List.rdropWhile isSpace (s.dropWhile isSpace) := rfl

theorem dropWhile_eq_self_of_head? (p : Char → Bool) (l : List Char)
    (h : ∀ x, l.head? = some x → p x = false) : List.dropWhile p l = l := by
  cases l with
  | nil => rfl
  | cons c cs => simp [List.dropWhile_cons, h c rfl]

theorem head?_dropWhile_false (p : Char → Bool) (l : List Char) {x : Char}
    (hx : (l.dropWhile p).head? = some x) : p x = false := by
  have hnot := List.head?_dropWhile_not p l
  rw [hx] at hnot
  exact hnot

theorem pyStrip_idem (s : List Char) : pyStrip (pyStrip s) = pyStrip s := by
  have key : List.dropWhile isSpace (pyStrip s) = pyStrip s := by
    apply dropWhile_eq_self_of_head?
    intro x hx
    obtain ⟨r, hr⟩ := List.rdropWhile_prefix isSpace (s.dropWhile isSpace)
    apply head?_dropWhile_false isSpace s
    rw [← hr, List.head?_append]
    rw [pyStrip_eq_rdropWhile] at hx
    rw [hx]
    rfl
  rw [pyStrip_eq_rdropWhile (pyStrip s), key, pyStrip_eq_rdropWhile s]
  exact List.rdropWhile_idempotent _ _

theorem floatList_length {ts : List (List Char)} {vs : List PyFloat}
    (h : floatList ts = some vs) : vs.length = ts.length := by
  induction ts generalizing vs with
  | nil =>
    simp only [floatList] at h
    cases h
    rfl
  | cons x xs ih =>
    simp only [floatList] at h
    cases hx : pyFloat (pyStrip x) with
    | none => rw [hx] at h; cases h
    | some v =>
      rw [hx] at h
      cases hxs : floatList xs with
      | none => rw [hxs] at h; cases h
      | some vs' =>
        rw [hxs] at h
        cases h
        simp [ih hxs]

theorem floatList_isSome_iff (ts : List (List Char)) :
    (floatList ts).isSome = true ↔ ∀ t ∈ ts, (pyFloat (pyStrip t)).isSome = true := by
  induction ts with
  | nil => simp [floatList]
  | cons x xs ih =>
    simp only [floatList]
    cases hx : pyFloat (pyStrip x) with
    | none => simp [hx]
    | some v =>
      cases hxs : floatList xs with
      | none =>
        rw [hxs] at ih
        simp only [Option.isSome_none, Bool.false_eq_true, false_iff] at ih
        push_neg at ih
        obtain ⟨t, ht, hnone⟩ := ih
        simp only [Option.isSome_some, List.mem_cons]
        constructor
        · intro hfalse; cases hfalse
        · intro hall
          exact absurd (hall t (Or.inr ht)) hnone
      | some vs =>
        rw [hxs] at ih
        simp only [Option.isSome_some, true_iff] at ih
        simp only [Option.isSome_some, true_iff, List.mem_cons]
        intro t ht
        rcases ht with rfl | ht
        · simp [hx]
        · exact ih t ht

/-! ### The framing step and the per-line acceptance -/

theorem extractStep_newline (buffer : List Char) (hnl : hasChar '\n' buffer = true) :
    ∃ line rest, extractStep buffer = .extracted line rest ∧
      hasChar '\n' line = false ∧ buffer = line ++ '\n' :: rest := by
  cases hsp : pySplit '\n' buffer with
  | nil => exact absurd hsp (pySplit_ne_nil '\n' buffer)
  | cons h t =>
    cases t with
    | nil =>
      have h2 := (hasChar_iff_pySplit '\n' buffer).mp hnl
      rw [hsp] at h2
      simp at h2
    | cons x t' =>
      refine ⟨h, pyJoin '\n' (x :: t'), ?_, ?_, ?_⟩
      · simp [extractStep, hnl, hsp]
      · exact hasChar_pySplit_head '\n' buffer hsp
      · have hj := pyJoin_pySplit '\n' buffer
        rw [hsp, pyJoin_cons_cons] at hj
        exact hj.symm

theorem extractStep_commas (buffer : List Char) (hnl : hasChar '\n' buffer = false)
    (hlen : 6 ≤ (pySplit ',' buffer).length) :
    extractStep buffer = .extracted (pyJoin ',' ((pySplit ',' buffer).take 6))
      (pyJoin ',' ((pySplit ',' buffer).drop 6)) := by
  have hc : hasChar ',' buffer = true := (hasChar_iff_pySplit ',' buffer).mpr (by omega)
  by_cases h6 : 6 < (pySplit ',' buffer).length
  · simp [extractStep, hnl, hc, hlen, h6]
  · have he : (pySplit ',' buffer).length = 6 := by omega
    have hd : (pySplit ',' buffer).drop 6 = [] := by
      rw [← he]
      exact List.drop_length _
    simp [extractStep, hnl, hc, hlen, h6, hd, pyJoin]

theorem extractStep_stuck (buffer : List Char) (hnl : hasChar '\n' buffer = false)
    (hlen : (pySplit ',' buffer).length < 6) :
    extractStep buffer = .noExtract := by
  cases hcb : hasChar ',' buffer with
  | true => simp [extractStep, hnl, hcb, Nat.not_le.mpr hlen]
  | false => simp [extractStep, hnl, hcb]

theorem processBuffer_stuck (fuel : Nat) (buffer : List Char)
    (h : extractStep buffer = .noExtract) : processBuffer fuel buffer = ([], buffer) := by
  cases fuel with
  | zero => rfl
  | succ f => simp [processBuffer, h]

theorem processBuffer_drop (fuel : Nat) (buffer line rest : List Char)
    (he : extractStep buffer = .extracted line rest) (ha : acceptLine line = none) :
    processBuffer (fuel + 1) buffer = processBuffer fuel rest := by
  simp [processBuffer, he, ha]

theorem parse_data_isSome (l : List Char) (hl : pyStrip l = l) (hne : ¬ l = []) :
    (parse_data l).isSome = true ↔
      ((floatList (pySplit ',' l)).isSome = true ∧ (pySplit ',' l).length = 6) := by
  unfold parse_data
  rw [hl, if_neg hne]
  cases hfl : floatList (pySplit ',' l) with
  | none => simp
  | some vs =>
    have hlen := floatList_length hfl
    by_cases h6 : vs.length = 6
    · simp [h6, ← hlen]
    · simp [h6, ← hlen]

theorem acceptLine_isSome_iff (line : List Char) :
    (acceptLine line).isSome = true ↔
      (pyStrip line ≠ [] ∧ hasChar ',' (pyStrip line) = true ∧
       (pySplit ',' (pyStrip line)).length = 6 ∧
       ∀ t ∈ pySplit ',' (pyStrip line), (pyFloat (pyStrip t)).isSome = true) := by
  have hidem := pyStrip_idem line
  by_cases hne : pyStrip line = []
  · simp [acceptLine, hne]
  · by_cases hcm : hasChar ',' (pyStrip line) = true
    · have hg : pyStrip line ≠ [] ∧ hasChar ',' (pyStrip line) = true := ⟨hne, hcm⟩
      have h1 := parse_data_isSome (pyStrip line) hidem hne
      have h2 := floatList_isSome_iff (pySplit ',' (pyStrip line))
      simp only [acceptLine, if_pos hg]
      rw [h1, h2]
      tauto
    · simp only [acceptLine]
      rw [if_neg (by tauto)]
      simp
      tauto

theorem acceptLine_eq_none_of_length (line : List Char)
    (h : (pySplit ',' (pyStrip line)).length ≠ 6) : acceptLine line = none := by
  rw [← Option.not_isSome_iff_eq_none]
  intro hs
  exact h ((acceptLine_isSome_iff line).mp hs).2.2.1

theorem acceptLine_eq_none_of_bad_token (line t : List Char)
    (ht : t ∈ pySplit ',' (pyStrip line)) (hbad : pyFloat (pyStrip t) = none) :
    acceptLine line = none := by
  rw [← Option.not_isSome_iff_eq_none]
  intro hs
  have := ((acceptLine_isSome_iff line).mp hs).2.2.2 t ht
  rw [hbad] at this
  cases this

/-! ### The receive loop -/

theorem sessionLoop_no_summary (events : List RecvEvent) :
    ∀ (count : Nat) (buf : List Char),
      (sessionLoop events count buf).out.countP isSummary = 0 := by
  induction events with
  | nil => intro count buf; rfl
  | cons e rest ih =>
    intro count buf
    cases e with
    | chunk s =>
      simp only [sessionLoop, List.countP_append, List.countP_map]
      have h1 : ((sessionLoop rest
          (count + (processBuffer ((buf ++ s).length + 1) (buf ++ s)).1.length)
          (processBuffer ((buf ++ s).length + 1) (buf ++ s)).2).out.countP isSummary) = 0 :=
        ih _ _
      have h2 : List.countP (isSummary ∘ OutEvent.displayUpdate)
          (processBuffer ((buf ++ s).length + 1) (buf ++ s)).1 = 0 := by
        apply List.countP_eq_zero.mpr
        intro a _
        simp [isSummary, Function.comp]
      omega
    | closed => rfl
    | sockError => rfl
    | timeout =>
      simp only [sessionLoop]
      exact ih count buf

/-! ### The claims -/

/-- C1: one extraction step of the parser loop prefers splitting on the first
newline when one is present; otherwise, when the buffer holds at least 6
comma-separated tokens, it takes the first 6 (joined by commas) as the
candidate record and rejoins all remaining tokens with commas as the new
buffer; with no newline and fewer than 6 tokens nothing is extracted. -/
theorem c1_extraction_step (buffer : List Char) :
    (hasChar '\n' buffer = true →
      ∃ line rest, extractStep buffer = .extracted line rest ∧
        hasChar '\n' line = false ∧ buffer = line ++ '\n' :: rest) ∧
    (hasChar '\n' buffer = false → 6 ≤ (pySplit ',' buffer).length →
      extractStep buffer = .extracted (pyJoin ',' ((pySplit ',' buffer).take 6))
        (pyJoin ',' ((pySplit ',' buffer).drop 6))) ∧
    (hasChar '\n' buffer = false → (pySplit ',' buffer).length < 6 →
      extractStep buffer = .noExtract) :=
  ⟨extractStep_newline buffer, extractStep_commas buffer, extractStep_stuck buffer⟩

/-- Witness for C1: the three cases at concrete buffers. -/
theorem c1_extraction_step_witness :
    (∃ line rest, extractStep ("1,2\n3".data) = .extracted line rest ∧
      hasChar '\n' line = false ∧ "1,2\n3".data = line ++ '\n' :: rest) ∧
    extractStep ("1,2,3,4,5,6,7".data) =
      .extracted (pyJoin ',' ((pySplit ',' ("1,2,3,4,5,6,7".data)).take 6))
        (pyJoin ',' ((pySplit ',' ("1,2,3,4,5,6,7".data)).drop 6)) ∧
    extractStep ("1,2,3".data) = .noExtract :=
  ⟨(c1_extraction_step _).1 (by decide),
   (c1_extraction_step _).2.1 (by decide) (by decide),
   (c1_extraction_step _).2.2 (by decide) (by decide)⟩

/-- C2, counterexample: the line `inf,0,0,0,0,0` is accepted by the code
(Python `float("inf")` succeeds), yet its first token is not a finite
number, so the claim's acceptance condition (`specAccepts`, which follows
the claim's words including "finite") rejects it. -/
theorem c2_counterexample :
    (acceptLine ("inf,0,0,0,0,0".data)).isSome = true ∧
    specAccepts ("inf,0,0,0,0,0".data) = false := by
  constructor <;> decide

/-- C2 (amended): a candidate record line is accepted, producing a record,
if and only if after trimming whitespace it is non-empty, contains at least
one comma, and splits into exactly 6 comma-separated tokens that all parse
as floating-point numbers — finite or not: infinities and NaN are accepted
too.  A failing line yields no record at all (the `Option` result is atomic:
no partial application). -/
theorem c2_accept_iff (line : List Char) :
    (acceptLine line).isSome = true ↔
      (pyStrip line ≠ [] ∧ hasChar ',' (pyStrip line) = true ∧
       (pySplit ',' (pyStrip line)).length = 6 ∧
       ∀ t ∈ pySplit ',' (pyStrip line), (pyFloat (pyStrip t)).isSome = true) :=
  acceptLine_isSome_iff line

/-- Witness for C2: a concrete line satisfying the acceptance condition is
accepted. -/
theorem c2_accept_iff_witness : (acceptLine ("1,2,3,4,5,6".data)).isSome = true :=
  (c2_accept_iff ("1,2,3,4,5,6".data)).mpr (by decide)

/-- C4: (1) a buffer with no newline and fewer than 6 comma-separated tokens
is left intact — the loop extracts nothing and consumes nothing, so the
incomplete input stays at the buffer head for the next receive; (2) when a
candidate line is extracted but rejected, no record is produced and
processing continues on exactly the remaining buffer (the garbage line is
discarded); (3) a line whose token count differs from 6 yields no record;
(4) a line with a token that fails the numeric parse yields no record. -/
theorem c4_incomplete_or_garbage :
    (∀ (fuel : Nat) (buffer : List Char), hasChar '\n' buffer = false →
      (pySplit ',' buffer).length < 6 → processBuffer fuel buffer = ([], buffer)) ∧
    (∀ (fuel : Nat) (buffer line rest : List Char),
      extractStep buffer = .extracted line rest → acceptLine line = none →
      processBuffer (fuel + 1) buffer = processBuffer fuel rest) ∧
    (∀ line : List Char, (pySplit ',' (pyStrip line)).length ≠ 6 →
      acceptLine line = none) ∧
    (∀ line t : List Char, t ∈ pySplit ',' (pyStrip line) →
      pyFloat (pyStrip t) = none → acceptLine line = none) := by
  refine ⟨?_, ?_, ?_, ?_⟩
  · intro fuel buffer hnl hlen
    exact processBuffer_stuck fuel buffer (extractStep_stuck buffer hnl hlen)
  · intro fuel buffer line rest he ha
    exact processBuffer_drop fuel buffer line rest he ha
  · exact acceptLine_eq_none_of_length
  · exact acceptLine_eq_none_of_bad_token

/-- Witness for C4: the four cases at concrete inputs. -/
theorem c4_incomplete_or_garbage_witness :
    processBuffer 3 ("1,2,3".data) = ([], "1,2,3".data) ∧
    processBuffer 3 ("a,b,c,d,e,f,g".data) = processBuffer 2 ("g".data) ∧
    acceptLine ("1,2,3".data) = none ∧
    acceptLine ("a,2,3,4,5,6".data) = none :=
  ⟨c4_incomplete_or_garbage.1 3 _ (by decide) (by decide),
   c4_incomplete_or_garbage.2.1 2 _ ("a,b,c,d,e,f".data) ("g".data) (by decide) (by decide),
   c4_incomplete_or_garbage.2.2.1 _ (by decide),
   c4_incomplete_or_garbage.2.2.2 _ ("a".data) (by decide) (by decide)⟩

/-- C3, counterexample: for the two-entry history `[1, 0]` (newest smaller
than oldest, a span of −1) the code returns 0.0, while the claim's
unconditional formula (`rate_spec`, following the claim's words) returns
(2 − 1) / (0 − 1) = −1. -/
theorem c3_counterexample :
    calculate_rate [(1 : Rat), 0] = 0 ∧ rate_spec [(1 : Rat), 0] = -1 ∧
    calculate_rate [(1 : Rat), 0] ≠ rate_spec [(1 : Rat), 0] := by
  refine ⟨?_, ?_, ?_⟩ <;> norm_num [calculate_rate, rate_spec, List.getLastD_cons]

/-- C3 (amended): the rate is exactly 0.0 below 2 samples; with 2 or more
samples it equals (count − 1) / (newest − oldest) whenever that span is
strictly positive, and is 0.0 when the span is zero or negative; for the
history [t0, t0+1, t0+2, t0+3] it is exactly 1.0. -/
theorem c3_rate (h : List Rat) (t0 : Rat) :
    (h.length < 2 → calculate_rate h = 0) ∧
    (2 ≤ h.length → 0 < h.getLastD 0 - h.headD 0 →
      calculate_rate h = ((h.length - 1 : Nat) : Rat) / (h.getLastD 0 - h.headD 0)) ∧
    (2 ≤ h.length → h.getLastD 0 - h.headD 0 ≤ 0 → calculate_rate h = 0) ∧
    calculate_rate [t0, t0 + 1, t0 + 2, t0 + 3] = 1 := by
  refine ⟨?_, ?_, ?_, ?_⟩
  · intro hlt
    simp [calculate_rate, hlt]
  · intro hge hpos
    have h1 : ¬ h.length < 2 := by omega
    unfold calculate_rate
    rw [if_neg h1]
    show (if 0 < h.getLastD 0 - h.headD 0
      then ((h.length - 1 : Nat) : Rat) / (h.getLastD 0 - h.headD 0) else 0) = _
    rw [if_pos hpos]
  · intro hge hnp
    have h1 : ¬ h.length < 2 := by omega
    have h2 : ¬ (0 : Rat) < h.getLastD 0 - h.headD 0 := not_lt.mpr hnp
    unfold calculate_rate
    rw [if_neg h1]
    show (if 0 < h.getLastD 0 - h.headD 0
      then ((h.length - 1 : Nat) : Rat) / (h.getLastD 0 - h.headD 0) else 0) = 0
    rw [if_neg h2]
  · have hlast : ([t0, t0 + 1, t0 + 2, t0 + 3] : List Rat).getLastD 0 = t0 + 3 := by
      simp [List.getLastD_cons]
    have hspan : t0 + 3 - t0 = 3 := by ring
    simp only [calculate_rate, hlast, List.headD_cons, List.length_cons, List.length_nil]
    norm_num [hspan]

/-- Witness for C3: each conjunct at a concrete history. -/
theorem c3_rate_witness :
    calculate_rate [(0 : Rat)] = 0 ∧
    calculate_rate [(0 : Rat), 2] = 1 / 2 ∧
    calculate_rate [(2 : Rat), 2] = 0 ∧
    calculate_rate [(5 : Rat), 5 + 1, 5 + 2, 5 + 3] = 1 := by
  refine ⟨(c3_rate [0] 0).1 (by norm_num), ?_, ?_, (c3_rate [5] 5).2.2.2⟩
  · have hw := (c3_rate [(0 : Rat), 2] 0).2.1 (by norm_num)
      (by norm_num [List.getLastD_cons])
    norm_num [List.getLastD_cons] at hw
    exact hw
  · exact (c3_rate [(2 : Rat), 2] 0).2.2.1 (by norm_num)
      (by norm_num [List.getLastD_cons])

/-- C5: with the stream split into the two receive chunks
`"10.5,2.3,25.0,1.5"` and `"00,1.480,50.2\n"`, the framing loop extracts no
record from the first chunk alone (the buffer is left intact) and exactly
one record once the second chunk has been appended. -/
theorem c5_two_chunks :
    processBuffer 18 ("10.5,2.3,25.0,1.5".data) = ([], "10.5,2.3,25.0,1.5".data) ∧
    (processBuffer 32 ("10.5,2.3,25.0,1.5".data ++ "00,1.480,50.2\n".data)).1.length = 1 := by
  constructor <;> decide

/-- C6: parsing the stream `"10.5,2.3,25.0,1.500,1.480,50.2\n"` yields
exactly one record, with the six values bound to the declared keys in the
fixed declared order. -/
theorem c6_parsed_record :
    processBuffer 31 ("10.5,2.3,25.0,1.500,1.480,50.2\n".data) =
      ([[("SLED_Current (mA)".data, PyFloat.finite (10.5 : Rat)),
         ("Photo Current (uA)".data, PyFloat.finite (2.3 : Rat)),
         ("SLED_Temp (C)".data, PyFloat.finite (25.0 : Rat)),
         ("Target SAG_PWR (V)".data, PyFloat.finite (1.500 : Rat)),
         ("SAG_PWR (V)".data, PyFloat.finite (1.480 : Rat)),
         ("TEC_Current (mA)".data, PyFloat.finite (50.2 : Rat))]], []) := by
  have e : processBuffer 31 ("10.5,2.3,25.0,1.500,1.480,50.2\n".data) =
      ([data_keys.zip
         [PyFloat.finite (floatValue ⟨false, ['1', '0'], ['5'], false, []⟩),
          PyFloat.finite (floatValue ⟨false, ['2'], ['3'], false, []⟩),
          PyFloat.finite (floatValue ⟨false, ['2', '5'], ['0'], false, []⟩),
          PyFloat.finite (floatValue ⟨false, ['1'], ['5', '0', '0'], false, []⟩),
          PyFloat.finite (floatValue ⟨false, ['1'], ['4', '8', '0'], false, []⟩),
          PyFloat.finite (floatValue ⟨false, ['5', '0'], ['2'], false, []⟩)]], []) := rfl
  have d0 : digitsToNat ([] : List Char) = 0 := by decide
  have v1 : floatValue ⟨false, ['1', '0'], ['5'], false, []⟩ = (10.5 : Rat) := by
    have d1 : digitsToNat ['1', '0'] = 10 := by decide
    have d2 : digitsToNat ['5'] = 5 := by decide
    norm_num [floatValue, d1, d2, d0]
  have v2 : floatValue ⟨false, ['2'], ['3'], false, []⟩ = (2.3 : Rat) := by
    have d1 : digitsToNat ['2'] = 2 := by decide
    have d2 : digitsToNat ['3'] = 3 := by decide
    norm_num [floatValue, d1, d2, d0]
  have v3 : floatValue ⟨false, ['2', '5'], ['0'], false, []⟩ = (25.0 : Rat) := by
    have d1 : digitsToNat ['2', '5'] = 25 := by decide
    have d2 : digitsToNat ['0'] = 0 := by decide
    norm_num [floatValue, d1, d2, d0]
  have v4 : floatValue ⟨false, ['1'], ['5', '0', '0'], false, []⟩ = (1.500 : Rat) := by
    have d1 : digitsToNat ['1'] = 1 := by decide
    have d2 : digitsToNat ['5', '0', '0'] = 500 := by decide
    norm_num [floatValue, d1, d2, d0]
  have v5 : floatValue ⟨false, ['1'], ['4', '8', '0'], false, []⟩ = (1.480 : Rat) := by
    have d1 : digitsToNat ['1'] = 1 := by decide
    have d2 : digitsToNat ['4', '8', '0'] = 480 := by decide
    norm_num [floatValue, d1, d2, d0]
  have v6 : floatValue ⟨false, ['5', '0'], ['2'], false, []⟩ = (50.2 : Rat) := by
    have d1 : digitsToNat ['5', '0'] = 50 := by decide
    have d2 : digitsToNat ['2'] = 2 := by decide
    norm_num [floatValue, d1, d2, d0]
  rw [e, v1, v2, v3, v4, v5, v6]
  rfl

/-- C7: the arrival history is a bounded FIFO of at most 50 timestamps:
appending to a history within capacity keeps it within capacity; below
capacity the timestamp is appended at the end; at capacity exactly the
oldest entry is evicted; the result is always a suffix of the appended
sequence (arrival order is preserved) and ends with the new timestamp. -/
theorem c7_history_fifo (h : List Rat) (t : Rat) (hb : h.length ≤ 50) :
    (rate_history_append h t).length ≤ 50 ∧
    (h.length < 50 → rate_history_append h t = h ++ [t]) ∧
    (h.length = 50 → rate_history_append h t = h.tail ++ [t]) ∧
    rate_history_append h t <:+ h ++ [t] ∧
    (rate_history_append h t).getLast? = some t := by
  unfold rate_history_append
  by_cases hlt : h.length < 50
  · rw [if_pos hlt]
    refine ⟨?_, fun _ => rfl, fun he => absurd he (by omega),
      List.suffix_refl _, List.getLast?_concat _⟩
    rw [List.length_append]
    simp only [List.length_cons, List.length_nil]
    omega
  · rw [if_neg hlt]
    have h50 : h.length = 50 := by omega
    refine ⟨?_, fun hl => absurd hl hlt, fun _ => rfl, ?_, List.getLast?_concat _⟩
    · rw [List.length_append, List.length_tail]
      simp only [List.length_cons, List.length_nil]
      omega
    · obtain ⟨p, hp⟩ := List.tail_suffix h
      exact ⟨p, by rw [← List.append_assoc, hp]⟩

/-- Witness for C7: appending to an empty history. -/
theorem c7_history_fifo_witness : rate_history_append ([] : List Rat) 3 = [3] := by
  have hw := (c7_history_fifo ([] : List Rat) 3 (by norm_num)).2.1 (by norm_num)
  simpa using hw

/-- C8: a zero-length read makes the receive loop stop at once — the state
becomes closed-by-peer, the remaining events are never consumed — and every
execution of the session prints the summary footer exactly once (the
`finally:` block), never more than once. -/
theorem c8_close_and_one_summary :
    (∀ (rest : List RecvEvent) (count : Nat) (buf : List Char),
      sessionLoop (RecvEvent.closed :: rest) count buf =
        ⟨[OutEvent.statusDisconnected], count, buf, SessionEnd.closedByPeer, rest⟩) ∧
    (∀ events : List RecvEvent, (runSession events).1.countP isSummary = 1) := by
  constructor
  · intro rest count buf
    rfl
  · intro events
    simp only [runSession, List.countP_append, sessionLoop_no_summary events 0 []]
    rfl

/-- C9: the CLI defaults the host to the loopback address 127.0.0.1 and the
port to 65432 when the arguments are omitted; a port argument that fails
integer parsing makes the process exit with failure code 1, with no client
constructed; a parseable port is used as given. -/
theorem c9_cli (argv : List (List Char)) :
    (argv.length ≤ 1 → main_fn argv = .runClient ("127.0.0.1".data) 65432) ∧
    (argv.length = 2 → main_fn argv = .runClient (argv.getD 1 []) 65432) ∧
    (3 ≤ argv.length → pyInt (argv.getD 2 []) = none → main_fn argv = .exitFailure 1) ∧
    (3 ≤ argv.length → ∀ p : Int, pyInt (argv.getD 2 []) = some p →
      main_fn argv = .runClient (argv.getD 1 []) p) := by
  refine ⟨?_, ?_, ?_, ?_⟩
  · intro hl
    have h2 : ¬ 2 ≤ argv.length := by omega
    have h3 : ¬ 3 ≤ argv.length := by omega
    simp [main_fn, h2, h3]
  · intro hl
    have h2 : 2 ≤ argv.length := by omega
    have h3 : ¬ 3 ≤ argv.length := by omega
    simp [main_fn, h2, h3]
  · intro h3 hnone
    have h2 : 2 ≤ argv.length := by omega
    rw [List.getD_eq_getElem?_getD] at hnone
    simp [main_fn, h2, h3, hnone]
  · intro h3 p hp
    have h2 : 2 ≤ argv.length := by omega
    rw [List.getD_eq_getElem?_getD] at hp
    simp [main_fn, h2, h3, hp]

/-- Witness for C9: no arguments gives the defaults; the unparseable port
`x` exits with code 1. -/
theorem c9_cli_witness :
    main_fn [("client".data)] = .runClient ("127.0.0.1".data) 65432 ∧
    main_fn [("client".data), ("h".data), ("x".data)] = .exitFailure 1 :=
  ⟨(c9_cli _).1 (by decide), (c9_cli _).2.2.1 (by decide) (by decide)⟩

/-- C10: the rate calculation is total and guards its division — with 2 or
more samples it returns 0.0 whenever the span is zero or negative, and only
divides when the span is strictly positive. -/
theorem c10_rate_guarded (h : List Rat) (hl : 2 ≤ h.length) :
    (h.getLastD 0 - h.headD 0 ≤ 0 → calculate_rate h = 0) ∧
    (0 < h.getLastD 0 - h.headD 0 →
      calculate_rate h = ((h.length - 1 : Nat) : Rat) / (h.getLastD 0 - h.headD 0)) := by
  have h1 : ¬ h.length < 2 := by omega
  constructor
  · intro hnp
    have h2 : ¬ (0 : Rat) < h.getLastD 0 - h.headD 0 := not_lt.mpr hnp
    unfold calculate_rate
    rw [if_neg h1]
    show (if 0 < h.getLastD 0 - h.headD 0
      then ((h.length - 1 : Nat) : Rat) / (h.getLastD 0 - h.headD 0) else 0) = 0
    rw [if_neg h2]
  · intro hpos
    unfold calculate_rate
    rw [if_neg h1]
    show (if 0 < h.getLastD 0 - h.headD 0
      then ((h.length - 1 : Nat) : Rat) / (h.getLastD 0 - h.headD 0) else 0) = _
    rw [if_pos hpos]

/-- Witness for C10: a zero span returns 0; a positive span divides. -/
theorem c10_rate_guarded_witness :
    calculate_rate [(2 : Rat), 2] = 0 ∧ calculate_rate [(1 : Rat), 3] = 1 / 2 := by
  constructor
  · exact (c10_rate_guarded [(2 : Rat), 2] (by norm_num)).1
      (by norm_num [List.getLastD_cons])
  · have hw := (c10_rate_guarded [(1 : Rat), 3] (by norm_num)).2
      (by norm_num [List.getLastD_cons])
    norm_num [List.getLastD_cons] at hw
    exact hw
